import Mathlib

/-!
# A verification development for LDAPLynx (`ldaplynx.py`)

This file gives a shallow embedding, in Lean 4, of the core logic of the
LDAPLynx LDIF-to-graph converter, and proves properties of that embedding.

Modelling conventions:

* Python strings are Lean `String`s; `str.strip()` is modelled by `strip`
  below (it removes the ASCII whitespace characters, which is what the
  inputs at stake contain); `str.splitlines()` is modelled by `splitLines`
  (splitting on the newline character, dropping a trailing empty segment,
  and mapping the empty text to no lines — the behaviour of `splitlines`
  on newline-separated text).
* `line.split(":", 1)[0]` and `line.split(":", 1)[1]` are modelled by
  `beforeFirstColon` and `afterFirstColon`.
* Python's `None` becomes `Option.none`; `x.get(k, None)` on a `dict`
  becomes `lookupTable` on an association list.
* The Python `set` of nodes is modelled as a duplicate-free list with
  insertion order (`setAdd` inserts only when absent): membership and
  duplicate-freeness agree with the Python set; only the iteration order
  (which Python leaves unspecified) is determinised.
* File writing in `export` is modelled by returning the two CSV table
  strings; the console methods become pure functions on a `ConsoleState`,
  returning the new state together with a success flag where the Python
  method prints an error message and returns early.
-/

namespace LDAPLynx

/-- Python `str.strip()` on a line of an LDIF export (ASCII whitespace). -/
def strip (s : String) : String :=
  String.mk (((s.data.dropWhile Char.isWhitespace).reverse.dropWhile Char.isWhitespace).reverse)

/-- Python `str.startswith(p)`. -/
def strStartsWith (s p : String) : Bool :=
  p.data.isPrefixOf s.data

/-- Python `":" in line`. -/
def hasColon (s : String) : Bool :=
  s.data.any (fun c => c == ':')

/-- Python `line.split(":", 1)[0]`: the text strictly before the first colon. -/
def beforeFirstColon (s : String) : String :=
  String.mk (s.data.takeWhile (fun c => !(c == ':')))

/-- Python `line.split(":", 1)[1]`: the text strictly after the first colon. -/
def afterFirstColon (s : String) : String :=
  String.mk ((s.data.dropWhile (fun c => !(c == ':'))).drop 1)

/-- Helper for `splitLines`: accumulate the current line (reversed). -/
def splitLinesAux (cur : List Char) : List Char → List (List Char)
  | [] => [cur.reverse]
  | c :: rest =>
    if c == '\n' then
      cur.reverse :: (match rest with
        | [] => []
        | _ :: _ => splitLinesAux [] rest)
    else
      splitLinesAux (c :: cur) rest

/-- Python `text.splitlines()` for newline-separated text. -/
def splitLines (s : String) : List String :=
  match s.data with
  | [] => []
  | l => (splitLinesAux [] l).map String.mk

/-- Python `table.get(key, None)` on a `dict` modelled as an association list. -/
def lookupTable (t : List (String × String)) (k : String) : Option String :=
  (t.find? (fun p => p.1 == k)).map (fun p => p.2)

/-- A graph node `(dn, label, type)`; the `dn` is `none` when the entry's
distinguished name was never set (lines before the first `dn:` line). -/
abbrev Node := Option String × String × String

/-- A graph edge `(sourceDn, targetDn, relation)`; the target is the current
entry's dn, `none` before the first `dn:` line. -/
abbrev Edge := String × Option String × String

/-- Python `set.add` on the node set, modelled as insertion into a
duplicate-free list. -/
def setAdd (l : List Node) (n : Node) : List Node :=
  if n ∈ l then l else l ++ [n]

/-- Python `set.add` for the detected attribute names. -/
def setAddStr (l : List String) (a : String) : List String :=
  if a ∈ l then l else l ++ [a]

/-- Helper for `containsSub`, structural on the scanned list. -/
def containsAux : List Char → List Char → Bool
  | [], sub => sub.isEmpty
  | c :: rest, sub => sub.isPrefixOf (c :: rest) || containsAux rest sub

/-- Python `sub in line` (substring containment). -/
def containsSub (l sub : String) : Bool :=
  containsAux l.data sub.data

/-- The running state of the line scan in `parse_ldif`: the (never written)
`uid_to_dn` table, the edge list, the node set, and the `current_dn` /
`current_type` trackers. -/
structure ParseState where
  uid_to_dn : List (String × String)
  edges : List Edge
  nodes : List Node
  current_dn : Option String
  current_type : Option String
  deriving DecidableEq

/-- The state at the top of `parse_ldif`: empty table, no edges, no nodes,
`current_dn = None`, `current_type = None`. -/
def initState : ParseState :=
  { uid_to_dn := [], edges := [], nodes := [], current_dn := none, current_type := none }

/-- The body of the `for attr in membership_attributes` loop in `parse_ldif`,
for one attribute name, acting on the already stripped line. -/
def membershipStep (line : String) (s : ParseState) (attr : String) : ParseState :=
  if strStartsWith line (attr ++ ":") then
    let member_value := strip (afterFirstColon line)
    let member_dn : Option String :=
      if attr == "memberUid" then lookupTable s.uid_to_dn member_value
      else some member_value
    match member_dn with
    | none => s
    | some d =>
      if d == "" then s
      else { s with edges := s.edges ++ [(d, s.current_dn, "memberOf")] }
  else s

/-- One iteration of the `for line in ldif_content.splitlines()` loop of
`parse_ldif`, mirroring its `if`/`elif`/`else` chain. -/
def processLine (membership_attributes : List String) (s : ParseState) (rawLine : String) :
    ParseState :=
  let line := strip rawLine
  if strStartsWith line "dn:" then
    { s with current_dn := some (strip (afterFirstColon line)), current_type := none }
  else if strStartsWith line "objectClass:" then
    if containsSub line "inetOrgPerson" || containsSub line "posixAccount" then
      { s with current_type := some "User" }
    else if containsSub line "groupOfNames" || containsSub line "posixGroup" ||
        containsSub line "groupOfMembers" then
      { s with current_type := some "Group" }
    else s
  else if strStartsWith line "uid:" && (s.current_type == some "User") then
    { s with nodes := setAdd s.nodes (s.current_dn, strip (afterFirstColon line), "User") }
  else if strStartsWith line "cn:" && (s.current_type == some "Group") then
    { s with nodes := setAdd s.nodes (s.current_dn, strip (afterFirstColon line), "Group") }
  else
    membership_attributes.foldl (membershipStep line) s

/-- `parse_ldif(ldif_content, membership_attributes)`: scan the lines,
return `(list(nodes), edges)`. -/
def parse_ldif (ldif_content : String) (membership_attributes : List String) :
    List Node × List Edge :=
  let final := (splitLines ldif_content).foldl (processLine membership_attributes) initState
  (final.nodes, final.edges)

/-- The candidate vocabulary of `detect_membership_attributes`. -/
def common_attributes : List String :=
  ["member", "memberUid", "uniqueMember", "isMemberOf", "memberOf"]

/-- `detect_membership_attributes` on the loaded LDIF text: collect into a set
every candidate name occurring as the pre-colon text of some stripped line. -/
def detect_membership_attributes (ldif_content : String) : List String :=
  (splitLines ldif_content).foldl
    (fun acc rawLine =>
      let line := strip rawLine
      if hasColon line then
        let attrName := beforeFirstColon line
        if attrName ∈ common_attributes then setAddStr acc attrName else acc
      else acc)
    []

/-- The mutable fields of `LDIFConsole` that the core commands touch. -/
structure ConsoleState where
  ldif_content : Option String
  membership_attributes : List String
  nodes : List Node
  edges : List Edge
  deriving DecidableEq

/-- `LDIFConsole.__init__`. -/
def initConsole : ConsoleState :=
  { ldif_content := none, membership_attributes := ["member", "memberUid"],
    nodes := [], edges := [] }

/-- `LDIFConsole.parse`: with no loaded content (Python-falsy: `None` or the
empty string) report failure and leave the state untouched; otherwise replace
`nodes`/`edges` with the result of `parse_ldif`. -/
def consoleParse (s : ConsoleState) : ConsoleState × Bool :=
  match s.ldif_content with
  | none => (s, false)
  | some c =>
    if c == "" then (s, false)
    else
      let r := parse_ldif c s.membership_attributes
      ({ s with nodes := r.1, edges := r.2 }, true)

/-- Python `f-string` rendering of a possibly-`None` dn (as in `export`). -/
def showDn : Option String → String
  | none => "None"
  | some d => d

/-- One quoted CSV field. -/
def quoteField (s : String) : String := "\"" ++ s ++ "\""

/-- The nodes table written by `LDIFConsole.export`. -/
def nodesCsv (nodes : List Node) : String :=
  nodes.foldl
    (fun acc n =>
      acc ++ quoteField (showDn n.1) ++ "," ++ quoteField n.2.1 ++ "," ++
        quoteField n.2.2 ++ "\n")
    "Id,Label,Type\n"

/-- The edges table written by `LDIFConsole.export`. -/
def edgesCsv (edges : List Edge) : String :=
  edges.foldl
    (fun acc e =>
      acc ++ quoteField e.1 ++ "," ++ quoteField (showDn e.2.1) ++ "," ++
        quoteField e.2.2 ++ "\n")
    "Source,Target,Relation\n"

/-- `LDIFConsole.export`: refuse (returning `none`) when the node list or the
edge list is Python-falsy (empty); otherwise produce both CSV tables. -/
def consoleExport (s : ConsoleState) : Option (String × String) :=
  if s.nodes.isEmpty || s.edges.isEmpty then none
  else some (nodesCsv s.nodes, edgesCsv s.edges)

/-- A line that begins a new entry (`line.startswith("dn:")` after stripping). -/
def isDnLine (rawLine : String) : Bool :=
  strStartsWith (strip rawLine) "dn:"

/-- The classification assigned by a single line, if any: `some "User"` or
`some "Group"` for a matching `objectClass` line, `none` otherwise. -/
def classifyLineAssign (rawLine : String) : Option String :=
  let line := strip rawLine
  if strStartsWith line "objectClass:" then
    if containsSub line "inetOrgPerson" || containsSub line "posixAccount" then some "User"
    else if containsSub line "groupOfNames" || containsSub line "posixGroup" ||
        containsSub line "groupOfMembers" then some "Group"
    else none
  else none

/-- The lines of the current (last) entry: the maximal suffix containing no
`dn:` line. -/
def entrySuffix (lines : List String) : List String :=
  (lines.reverse.takeWhile (fun l => !(isDnLine l))).reverse

/-- The classification assigned by the most recent type-assigning line of a
line sequence, if any. -/
def lastAssign (lines : List String) : Option String :=
  (lines.filterMap classifyLineAssign).getLast?

/-- The invariant behind claim C10: scanning lines none of which begins a new
entry keeps `current_dn = none` and produces only null-dn nodes and null-target
edges. -/
def NullDnInv (s : ParseState) : Prop :=
  s.current_dn = none ∧ (∀ e ∈ s.edges, e.2.1 = none) ∧ (∀ n ∈ s.nodes, n.1 = none)

/-- The per-line detection condition of `detect_membership_attributes`: the
stripped line has a colon and its pre-colon text is exactly `a`. -/
def detCond (rawLine a : String) : Prop :=
  hasColon (strip rawLine) = true ∧ beforeFirstColon (strip rawLine) = a

instance (rawLine a : String) : Decidable (detCond rawLine a) := by
  unfold detCond; infer_instance

/-! ### Concrete documents and states used below -/

/-- A document with a User entry declaring `uid: alice` and a later Group
entry referencing `memberUid: alice`. -/
def c1doc : String :=
  "dn: uid=alice,ou=people,dc=x\nobjectClass: inetOrgPerson\nuid: alice\n\ndn: cn=admins,ou=groups,dc=x\nobjectClass: posixGroup\ncn: admins\nmemberUid: alice"

/-- An entry whose `uid` line textually precedes its `objectClass` line. -/
def c2doc : String := "dn: d\nuid: alice\nobjectClass: inetOrgPerson"

/-- A Group entry with a `member` reference to a DN that is never a node. -/
def c6doc : String := "dn: cn=g,dc=x\nobjectClass: posixGroup\ncn: g\nmember: uid=ghost,dc=x"

/-- A console state with a loaded document that parses to nodes but no edges. -/
def c7state : ConsoleState :=
  { initConsole with
      ldif_content := some "dn: uid=a,dc=x\nobjectClass: inetOrgPerson\nuid: a" }

/-- A console state holding already-parsed non-empty nodes and edges. -/
def c7full : ConsoleState :=
  { initConsole with
      nodes := [(some "uid=a,dc=x", "a", "User")],
      edges := [("uid=a,dc=x", some "cn=g,dc=x", "memberOf")] }

/-- One entry with the same `uid` value twice. -/
def c9dupDoc : String := "dn: uid=a,dc=x\nobjectClass: posixAccount\nuid: a\nuid: a"

/-- One entry with two different `uid` values (same dn, different labels). -/
def c9twoDoc : String := "dn: uid=a,dc=x\nobjectClass: posixAccount\nuid: a\nuid: b"

/-- One entry with a duplicated membership line. -/
def c9edgeDoc : String := "dn: cn=g,dc=x\nmember: u1\nmember: u1\nmember: u2"

/-- A document whose first `dn:` line comes only after classification,
label and membership lines. -/
def c10doc : String := "objectClass: inetOrgPerson\nuid: alice\nmember: uid=b,dc=x\ndn: d"

/-- A state mid-scan inside a User entry, for the claim C2 witness. -/
def c2state : ParseState :=
  { uid_to_dn := [], edges := [], nodes := [], current_dn := some "uid=alice,dc=x",
    current_type := some "User" }

/-! ## Helper lemmas -/

theorem strStartsWith_head {s p : String} {c : Char} {cs : List Char}
    (hp : p.data = c :: cs) (h : strStartsWith s p = true) :
    ∃ t, s.data = c :: t := by
  unfold strStartsWith at h
  rw [hp] at h
  cases hs : s.data with
  | nil => rw [hs] at h; simp [List.isPrefixOf] at h
  | cons d t =>
    rw [hs] at h
    simp only [List.isPrefixOf, Bool.and_eq_true, beq_iff_eq] at h
    exact ⟨t, by rw [h.1]⟩

theorem strStartsWith_false_of_head_ne {s p q : String} {c d : Char}
    {cs ds : List Char} (hp : p.data = c :: cs) (hq : q.data = d :: ds)
    (hcd : c ≠ d) (h : strStartsWith s p = true) :
    strStartsWith s q = false := by
  obtain ⟨t, ht⟩ := strStartsWith_head hp h
  cases h2 : strStartsWith s q with
  | false => rfl
  | true =>
    obtain ⟨t', ht'⟩ := strStartsWith_head hq h2
    rw [ht] at ht'
    exact absurd (List.cons.injEq .. ▸ ht').1 hcd

theorem membershipStep_cases (line : String) (s : ParseState) (a : String) :
    membershipStep line s a = s ∨
    ∃ d, d ≠ "" ∧
      membershipStep line s a = { s with edges := s.edges ++ [(d, s.current_dn, "memberOf")] } := by
  simp only [membershipStep]
  split
  · split
    · left; rfl
    · split
      · left; rfl
      · rename_i d hmd hne
        right
        exact ⟨d, by simpa using hne, rfl⟩
  · left; rfl

theorem membershipStep_nodes (line : String) (s : ParseState) (a : String) :
    (membershipStep line s a).nodes = s.nodes := by
  rcases membershipStep_cases line s a with h | ⟨d, _, h⟩ <;> rw [h]

theorem membershipStep_current_dn (line : String) (s : ParseState) (a : String) :
    (membershipStep line s a).current_dn = s.current_dn := by
  rcases membershipStep_cases line s a with h | ⟨d, _, h⟩ <;> rw [h]

theorem membershipStep_current_type (line : String) (s : ParseState) (a : String) :
    (membershipStep line s a).current_type = s.current_type := by
  rcases membershipStep_cases line s a with h | ⟨d, _, h⟩ <;> rw [h]

theorem membershipStep_uid_to_dn (line : String) (s : ParseState) (a : String) :
    (membershipStep line s a).uid_to_dn = s.uid_to_dn := by
  rcases membershipStep_cases line s a with h | ⟨d, _, h⟩ <;> rw [h]

theorem membershipStep_edges_append (line : String) (s : ParseState) (a : String) :
    ∃ t, (membershipStep line s a).edges = s.edges ++ t := by
  rcases membershipStep_cases line s a with h | ⟨d, _, h⟩ <;> rw [h]
  · exact ⟨[], by rw [List.append_nil]⟩
  · exact ⟨_, rfl⟩

theorem membershipFold_nodes (line : String) (attrs : List String) (s : ParseState) :
    (attrs.foldl (membershipStep line) s).nodes = s.nodes := by
  induction attrs generalizing s with
  | nil => rfl
  | cons a rest ih => rw [List.foldl_cons, ih, membershipStep_nodes]

theorem membershipFold_current_dn (line : String) (attrs : List String) (s : ParseState) :
    (attrs.foldl (membershipStep line) s).current_dn = s.current_dn := by
  induction attrs generalizing s with
  | nil => rfl
  | cons a rest ih => rw [List.foldl_cons, ih, membershipStep_current_dn]

theorem membershipFold_current_type (line : String) (attrs : List String) (s : ParseState) :
    (attrs.foldl (membershipStep line) s).current_type = s.current_type := by
  induction attrs generalizing s with
  | nil => rfl
  | cons a rest ih => rw [List.foldl_cons, ih, membershipStep_current_type]

theorem membershipFold_uid_to_dn (line : String) (attrs : List String) (s : ParseState) :
    (attrs.foldl (membershipStep line) s).uid_to_dn = s.uid_to_dn := by
  induction attrs generalizing s with
  | nil => rfl
  | cons a rest ih => rw [List.foldl_cons, ih, membershipStep_uid_to_dn]

theorem membershipFold_edges_append (line : String) (attrs : List String) (s : ParseState) :
    ∃ t, (attrs.foldl (membershipStep line) s).edges = s.edges ++ t := by
  induction attrs generalizing s with
  | nil => exact ⟨[], by simp⟩
  | cons a rest ih =>
    obtain ⟨t1, h1⟩ := membershipStep_edges_append line s a
    obtain ⟨t2, h2⟩ := ih (membershipStep line s a)
    exact ⟨t1 ++ t2, by rw [List.foldl_cons, h2, h1, List.append_assoc]⟩

theorem membershipStep_no_match (line : String) (s : ParseState) (a : String)
    (h : strStartsWith line (a ++ ":") = false) :
    membershipStep line s a = s := by
  simp [membershipStep, h]

theorem membershipStep_of_match (line : String) (s : ParseState) (a : String)
    (hm : strStartsWith line (a ++ ":") = true) (hnu : a ≠ "memberUid")
    (hne : strip (afterFirstColon line) ≠ "") :
    membershipStep line s a =
      { s with edges := s.edges ++ [(strip (afterFirstColon line), s.current_dn, "memberOf")] } := by
  simp [membershipStep, hm, beq_eq_false_iff_ne.mpr hnu, hne]

theorem membershipStep_memberUid_drop (line : String) (s : ParseState)
    (hl : lookupTable s.uid_to_dn (strip (afterFirstColon line)) = none) :
    membershipStep line s "memberUid" = s := by
  simp [membershipStep, hl]

theorem processLine_uid_to_dn (attrs : List String) (s : ParseState) (l : String) :
    (processLine attrs s l).uid_to_dn = s.uid_to_dn := by
  simp only [processLine]
  split
  · rfl
  · split
    · split
      · rfl
      · split <;> rfl
    · split
      · rfl
      · split
        · rfl
        · rw [membershipFold_uid_to_dn]

theorem processLine_current_dn (attrs : List String) (s : ParseState) (l : String) :
    (processLine attrs s l).current_dn =
      if isDnLine l then some (strip (afterFirstColon (strip l))) else s.current_dn := by
  simp only [processLine, isDnLine]
  split
  · rfl
  · split
    · split
      · rfl
      · split <;> rfl
    · split
      · rfl
      · split
        · rfl
        · rw [membershipFold_current_dn]

theorem processLine_current_type (attrs : List String) (s : ParseState) (l : String) :
    (processLine attrs s l).current_type =
      if isDnLine l then none else (classifyLineAssign l).or s.current_type := by
  simp only [processLine, isDnLine, classifyLineAssign]
  split
  · rfl
  · split
    · split
      · rfl
      · split <;> rfl
    · split
      · rfl
      · split
        · rfl
        · rw [membershipFold_current_type, Option.none_or]

theorem processLine_nodes (attrs : List String) (s : ParseState) (l : String) :
    (processLine attrs s l).nodes =
      if isDnLine l then s.nodes
      else if strStartsWith (strip l) "objectClass:" then s.nodes
      else if strStartsWith (strip l) "uid:" && (s.current_type == some "User") then
        setAdd s.nodes (s.current_dn, strip (afterFirstColon (strip l)), "User")
      else if strStartsWith (strip l) "cn:" && (s.current_type == some "Group") then
        setAdd s.nodes (s.current_dn, strip (afterFirstColon (strip l)), "Group")
      else s.nodes := by
  simp only [processLine, isDnLine]
  split
  · rfl
  · split
    · split
      · rfl
      · split <;> rfl
    · split
      · rfl
      · split
        · rfl
        · rw [membershipFold_nodes]

theorem processLine_edges (attrs : List String) (s : ParseState) (l : String) :
    (processLine attrs s l).edges =
      if isDnLine l then s.edges
      else if strStartsWith (strip l) "objectClass:" then s.edges
      else if strStartsWith (strip l) "uid:" && (s.current_type == some "User") then s.edges
      else if strStartsWith (strip l) "cn:" && (s.current_type == some "Group") then s.edges
      else (attrs.foldl (membershipStep (strip l)) s).edges := by
  simp only [processLine, isDnLine]
  split
  · rfl
  · split
    · split
      · rfl
      · split <;> rfl
    · split
      · rfl
      · split <;> rfl

theorem processLine_eq_membershipFold (attrs : List String) (s : ParseState) (l : String)
    (h1 : strStartsWith (strip l) "dn:" = false)
    (h2 : strStartsWith (strip l) "objectClass:" = false)
    (h3 : (strStartsWith (strip l) "uid:" && (s.current_type == some "User")) = false)
    (h4 : (strStartsWith (strip l) "cn:" && (s.current_type == some "Group")) = false) :
    processLine attrs s l = attrs.foldl (membershipStep (strip l)) s := by
  simp [processLine, h1, h2, h3, h4]

theorem membershipFold_edges_mono (line : String) (attrs : List String) (s : ParseState)
    (e : Edge) (h : e ∈ s.edges) : e ∈ (attrs.foldl (membershipStep line) s).edges := by
  obtain ⟨t, ht⟩ := membershipFold_edges_append line attrs s
  rw [ht]
  exact List.mem_append_left _ h

theorem membershipFold_mem_edges (line : String) (attrs : List String) (s : ParseState)
    (a : String) (ha : a ∈ attrs) (hm : strStartsWith line (a ++ ":") = true)
    (hnu : a ≠ "memberUid") (hne : strip (afterFirstColon line) ≠ "") :
    (strip (afterFirstColon line), s.current_dn, "memberOf") ∈
      (attrs.foldl (membershipStep line) s).edges := by
  induction attrs generalizing s with
  | nil => exact absurd ha (List.not_mem_nil a)
  | cons a0 rest ih =>
    rw [List.foldl_cons]
    rcases List.mem_cons.mp ha with rfl | ha0
    · apply membershipFold_edges_mono
      rw [membershipStep_of_match line s a hm hnu hne]
      exact List.mem_append_right _ (List.mem_singleton.mpr rfl)
    · have hdn := membershipStep_current_dn line s a0
      have := ih (membershipStep line s a0) ha0
      rwa [hdn] at this

theorem membershipFold_memberUid_only (line : String) (attrs : List String) (s : ParseState)
    (hattr : ∀ a ∈ attrs, strStartsWith line (a ++ ":") = true → a = "memberUid")
    (hl : lookupTable s.uid_to_dn (strip (afterFirstColon line)) = none) :
    attrs.foldl (membershipStep line) s = s := by
  induction attrs with
  | nil => rfl
  | cons a0 rest ih =>
    rw [List.foldl_cons]
    have hstep : membershipStep line s a0 = s := by
      cases hm : strStartsWith line (a0 ++ ":") with
      | false => exact membershipStep_no_match line s a0 hm
      | true =>
        have := hattr a0 (List.mem_cons_self a0 rest) hm
        subst this
        exact membershipStep_memberUid_drop line s hl
    rw [hstep]
    exact ih (fun a hmem => hattr a (List.mem_cons_of_mem a0 hmem))

theorem processLine_edges_memberUid_only (attrs : List String) (s : ParseState) (l : String)
    (hattr : ∀ a ∈ attrs, strStartsWith (strip l) (a ++ ":") = true → a = "memberUid")
    (hl : lookupTable s.uid_to_dn (strip (afterFirstColon (strip l))) = none) :
    (processLine attrs s l).edges = s.edges := by
  simp only [processLine]
  split
  · rfl
  · split
    · split
      · rfl
      · split <;> rfl
    · split
      · rfl
      · split
        · rfl
        · rw [membershipFold_memberUid_only (strip l) attrs s hattr hl]

theorem scanFold_uid_to_dn (attrs : List String) (lines : List String) (s : ParseState) :
    (lines.foldl (processLine attrs) s).uid_to_dn = s.uid_to_dn := by
  induction lines generalizing s with
  | nil => rfl
  | cons l ls ih => rw [List.foldl_cons, ih, processLine_uid_to_dn]

theorem scanFold_edges_memberUid_only (lines : List String) (s : ParseState)
    (h : s.uid_to_dn = []) :
    (lines.foldl (processLine ["memberUid"]) s).edges = s.edges := by
  induction lines generalizing s with
  | nil => rfl
  | cons l ls ih =>
    rw [List.foldl_cons]
    have h' : (processLine ["memberUid"] s l).uid_to_dn = [] := by
      rw [processLine_uid_to_dn, h]
    rw [ih _ h']
    apply processLine_edges_memberUid_only
    · intro a hmem _
      simpa using hmem
    · rw [h]; rfl

theorem getLast?_cons_or {α : Type} (t : α) (xs : List α) :
    (t :: xs).getLast? = xs.getLast?.or (some t) := by
  induction xs generalizing t with
  | nil => rfl
  | cons b l ih =>
    rw [List.getLast?_cons_cons, ih b]
    cases hl : l.getLast? with
    | none => rfl
    | some y => rfl

theorem scanFold_current_type (attrs : List String) (entry : List String) (s : ParseState)
    (h : ∀ l ∈ entry, isDnLine l = false) :
    (entry.foldl (processLine attrs) s).current_type =
      ((entry.filterMap classifyLineAssign).getLast?).or s.current_type := by
  induction entry generalizing s with
  | nil => rfl
  | cons l ls ih =>
    rw [List.foldl_cons]
    have hdn : isDnLine l = false := h l (List.mem_cons_self l ls)
    have hrest : ∀ x ∈ ls, isDnLine x = false := fun x hx => h x (List.mem_cons_of_mem l hx)
    rw [ih (processLine attrs s l) hrest, processLine_current_type, hdn]
    simp only [Bool.false_eq_true, if_false, List.filterMap_cons]
    cases hc : classifyLineAssign l with
    | none => rw [Option.none_or]
    | some t => rw [getLast?_cons_or, Option.or_assoc]

theorem scanFold_type_lastAssign (attrs : List String) (lines : List String) :
    (lines.foldl (processLine attrs) initState).current_type = lastAssign (entrySuffix lines) := by
  induction lines using List.reverseRecOn with
  | nil => rfl
  | append_singleton pre l ih =>
    rw [List.foldl_append, List.foldl_cons, List.foldl_nil, processLine_current_type]
    cases hdn : isDnLine l with
    | true =>
      have hsuf : entrySuffix (pre ++ [l]) = [] := by
        simp [entrySuffix, hdn]
      rw [hsuf]
      rfl
    | false =>
      have hsuf : entrySuffix (pre ++ [l]) = entrySuffix pre ++ [l] := by
        simp [entrySuffix, hdn, List.takeWhile_cons]
      rw [hsuf, if_neg (by simp [hdn]), ih]
      unfold lastAssign
      rw [List.filterMap_append]
      cases hc : classifyLineAssign l with
      | none =>
        simp only [List.filterMap_cons, hc, List.filterMap_nil]
        rw [List.append_nil, Option.none_or]
      | some t =>
        simp only [List.filterMap_cons, hc, List.filterMap_nil]
        rw [List.getLast?_concat]
        rfl

theorem mem_setAdd (l : List Node) (n m : Node) : m ∈ setAdd l n ↔ m ∈ l ∨ m = n := by
  unfold setAdd
  split
  · rename_i hn
    constructor
    · exact fun h => Or.inl h
    · rintro (h | rfl)
      · exact h
      · exact hn
  · simp [List.mem_append]

theorem setAdd_nodup (l : List Node) (n : Node) (h : l.Nodup) : (setAdd l n).Nodup := by
  unfold setAdd
  split
  · exact h
  · rename_i hn
    simpa [List.nodup_append] using ⟨h, hn⟩

theorem processLine_nodes_nodup (attrs : List String) (s : ParseState) (l : String)
    (h : s.nodes.Nodup) : (processLine attrs s l).nodes.Nodup := by
  rw [processLine_nodes]
  split
  · exact h
  · split
    · exact h
    · split
      · exact setAdd_nodup _ _ h
      · split
        · exact setAdd_nodup _ _ h
        · exact h

theorem scanFold_nodes_nodup (attrs : List String) (lines : List String) (s : ParseState)
    (h : s.nodes.Nodup) : ((lines.foldl (processLine attrs) s).nodes).Nodup := by
  induction lines generalizing s with
  | nil => exact h
  | cons l ls ih => exact ih (processLine attrs s l) (processLine_nodes_nodup attrs s l h)

theorem processLine_nodes_mono (attrs : List String) (s : ParseState) (l : String)
    (n : Node) (h : n ∈ s.nodes) : n ∈ (processLine attrs s l).nodes := by
  rw [processLine_nodes]
  split
  · exact h
  · split
    · exact h
    · split
      · exact (mem_setAdd _ _ _).mpr (Or.inl h)
      · split
        · exact (mem_setAdd _ _ _).mpr (Or.inl h)
        · exact h

theorem membershipFold_nullDn (line : String) (attrs : List String) (s : ParseState)
    (h : NullDnInv s) : NullDnInv (attrs.foldl (membershipStep line) s) := by
  induction attrs generalizing s with
  | nil => exact h
  | cons a rest ih =>
    rw [List.foldl_cons]
    apply ih
    rcases membershipStep_cases line s a with hs | ⟨d, _, hs⟩ <;> rw [hs]
    · exact h
    · obtain ⟨hdn, he, hn⟩ := h
      refine ⟨hdn, ?_, hn⟩
      intro e hmem
      rcases List.mem_append.mp hmem with hmem | hmem
      · exact he e hmem
      · rw [List.mem_singleton.mp hmem, hdn]

theorem processLine_nullDn (attrs : List String) (s : ParseState) (l : String)
    (hdn : isDnLine l = false) (h : NullDnInv s) : NullDnInv (processLine attrs s l) := by
  obtain ⟨h1, h2, h3⟩ := h
  simp only [processLine]
  split
  · rename_i hc
    exact absurd hc (by simp [isDnLine] at hdn; simp [hdn])
  · split
    · split
      · exact ⟨h1, h2, h3⟩
      · split <;> exact ⟨h1, h2, h3⟩
    · split
      · refine ⟨h1, h2, ?_⟩
        intro n hmem
        rcases (mem_setAdd _ _ _).mp hmem with hmem | rfl
        · exact h3 n hmem
        · exact h1
      · split
        · refine ⟨h1, h2, ?_⟩
          intro n hmem
          rcases (mem_setAdd _ _ _).mp hmem with hmem | rfl
          · exact h3 n hmem
          · exact h1
        · exact membershipFold_nullDn (strip l) attrs s ⟨h1, h2, h3⟩

theorem scanFold_nullDn (attrs : List String) (lines : List String) (s : ParseState)
    (hdn : ∀ l ∈ lines, isDnLine l = false) (h : NullDnInv s) :
    NullDnInv (lines.foldl (processLine attrs) s) := by
  induction lines generalizing s with
  | nil => exact h
  | cons l ls ih =>
    rw [List.foldl_cons]
    exact ih _ (fun x hx => hdn x (List.mem_cons_of_mem l hx))
      (processLine_nullDn attrs s l (hdn l (List.mem_cons_self l ls)) h)

theorem mem_setAddStr (l : List String) (a b : String) :
    b ∈ setAddStr l a ↔ b ∈ l ∨ b = a := by
  unfold setAddStr
  split
  · rename_i hn
    constructor
    · exact fun h => Or.inl h
    · rintro (h | rfl)
      · exact h
      · exact hn
  · simp [List.mem_append]

theorem detect_fold_mem (lines : List String) (acc : List String) (a : String) :
    a ∈ lines.foldl
        (fun acc rawLine =>
          let line := strip rawLine
          if hasColon line then
            let attrName := beforeFirstColon line
            if attrName ∈ common_attributes then setAddStr acc attrName else acc
          else acc)
        acc ↔
      a ∈ acc ∨ (a ∈ common_attributes ∧ ∃ l ∈ lines, detCond l a) := by
  induction lines generalizing acc with
  | nil => simp
  | cons l ls ih =>
    rw [List.foldl_cons, ih]
    simp only [List.mem_cons]
    constructor
    · rintro (hacc | hrest)
      · split at hacc
        · split at hacc
          · rcases (mem_setAddStr _ _ _).mp hacc with hacc | rfl
            · exact Or.inl hacc
            · rename_i hc hmem
              exact Or.inr ⟨hmem, l, Or.inl rfl, hc, rfl⟩
          · exact Or.inl hacc
        · exact Or.inl hacc
      · exact Or.inr ⟨hrest.1, hrest.2.choose,
          Or.inr hrest.2.choose_spec.1, hrest.2.choose_spec.2⟩
    · rintro (hacc | ⟨hcm, x, hx | hx, hcond⟩)
      · left
        split
        · split
          · exact (mem_setAddStr _ _ _).mpr (Or.inl hacc)
          · exact hacc
        · exact hacc
      · subst hx
        left
        obtain ⟨hc, hb⟩ := hcond
        rw [hc]
        simp only [if_true]
        rw [hb, if_pos hcm]
        exact (mem_setAddStr _ _ _).mpr (Or.inr rfl)
      · exact Or.inr ⟨hcm, x, hx, hcond⟩

theorem uid_not_dn {t : String} (h : strStartsWith t "uid:" = true) :
    strStartsWith t "dn:" = false :=
  strStartsWith_false_of_head_ne rfl rfl (by decide) h

theorem uid_not_objectClass {t : String} (h : strStartsWith t "uid:" = true) :
    strStartsWith t "objectClass:" = false :=
  strStartsWith_false_of_head_ne rfl rfl (by decide) h

theorem uid_not_cn {t : String} (h : strStartsWith t "uid:" = true) :
    strStartsWith t "cn:" = false :=
  strStartsWith_false_of_head_ne rfl rfl (by decide) h

theorem cn_not_dn {t : String} (h : strStartsWith t "cn:" = true) :
    strStartsWith t "dn:" = false :=
  strStartsWith_false_of_head_ne rfl rfl (by decide) h

theorem cn_not_objectClass {t : String} (h : strStartsWith t "cn:" = true) :
    strStartsWith t "objectClass:" = false :=
  strStartsWith_false_of_head_ne rfl rfl (by decide) h

theorem cn_not_uid {t : String} (h : strStartsWith t "cn:" = true) :
    strStartsWith t "uid:" = false :=
  strStartsWith_false_of_head_ne rfl rfl (by decide) h

theorem objectClass_not_dn {t : String} (h : strStartsWith t "objectClass:" = true) :
    strStartsWith t "dn:" = false :=
  strStartsWith_false_of_head_ne rfl rfl (by decide) h

/-! ## The claims -/

/-- Claim C1 (code bug in the source): the claim states that a Group entry's
`memberUid: X` line resolves, through a local-id table built from all User
entries, to an edge targeting that User's dn. In `parse_ldif` the `uid_to_dn`
table is created empty and never written, so no `memberUid` reference ever
resolves: with `memberUid` as the only configured attribute no document
produces any edge at all, and on the concrete two-entry document the User
and Group nodes are classified yet the edge list is empty. -/
theorem claim_C1 :
    (∀ ldif_content : String, (parse_ldif ldif_content ["memberUid"]).2 = [])
    ∧ (parse_ldif c1doc ["member", "memberUid"]).2 = []
    ∧ (some "uid=alice,ou=people,dc=x", "alice", "User") ∈
        (parse_ldif c1doc ["member", "memberUid"]).1
    ∧ (some "cn=admins,ou=groups,dc=x", "admins", "Group") ∈
        (parse_ldif c1doc ["member", "memberUid"]).1 := by
  refine ⟨?_, by decide, by decide, by decide⟩
  intro content
  exact scanFold_edges_memberUid_only (splitLines content) initState rfl

/-- Claim C2 (confirmed): a `uid:` line adds the node
`(current dn, value, User)` exactly when the running type is `User`, a `cn:`
line adds `(current dn, value, Group)` exactly when it is `Group`, the running
type after any scanned prefix is the assignment of the most recent
type-assigning `objectClass` line within the current entry, and on the
concrete entry whose `uid` line precedes its `objectClass: inetOrgPerson`
line no node is emitted. -/
theorem claim_C2 :
    (∀ (attrs : List String) (s : ParseState) (l : String),
      strStartsWith (strip l) "uid:" = true →
      (processLine attrs s l).nodes =
        (if s.current_type = some "User" then
          setAdd s.nodes (s.current_dn, strip (afterFirstColon (strip l)), "User")
         else s.nodes))
    ∧ (∀ (attrs : List String) (s : ParseState) (l : String),
      strStartsWith (strip l) "cn:" = true →
      (processLine attrs s l).nodes =
        (if s.current_type = some "Group" then
          setAdd s.nodes (s.current_dn, strip (afterFirstColon (strip l)), "Group")
         else s.nodes))
    ∧ (∀ (attrs : List String) (lines : List String),
      (lines.foldl (processLine attrs) initState).current_type =
        lastAssign (entrySuffix lines))
    ∧ parse_ldif c2doc ["member", "memberUid"] = ([], []) := by
  refine ⟨?_, ?_, ?_, by decide⟩
  · intro attrs s l h
    have hdn : isDnLine l = false := uid_not_dn h
    rw [processLine_nodes, hdn, if_neg (by simp), if_neg (by simp [uid_not_objectClass h])]
    by_cases hty : s.current_type = some "User"
    · rw [if_pos (by simp [h, hty]), if_pos hty]
    · rw [if_neg (by simp [hty]), if_neg (by simp [uid_not_cn h]), if_neg hty]
  · intro attrs s l h
    have hdn : isDnLine l = false := cn_not_dn h
    rw [processLine_nodes, hdn, if_neg (by simp), if_neg (by simp [cn_not_objectClass h]),
      if_neg (by simp [cn_not_uid h])]
    by_cases hty : s.current_type = some "Group"
    · rw [if_pos (by simp [h, hty]), if_pos hty]
    · rw [if_neg (by simp [hty]), if_neg hty]
  · intro attrs lines
    exact scanFold_type_lastAssign attrs lines

/-- Witness for claim C2 at a concrete input: inside a User entry, the line
`uid: alice` adds the node. -/
theorem claim_C2_witness :
    (processLine [] c2state "uid: alice").nodes =
      [(some "uid=alice,dc=x", "alice", "User")] := by
  rw [claim_C2.1 [] c2state "uid: alice" (by decide)]
  decide

/-- Counterexample to claim C3 as stated: a caller-supplied membership
attribute named `uid` matching a line inside a User entry emits no edge
(the line is consumed by the node branch), and a configured `member` line
with an empty value emits no edge (the falsy value is dropped), although the
claim demands the edges `("alice", "d", "memberOf")` and
`("", "d2", "memberOf")` respectively. -/
theorem claim_C3_counterexample :
    ("alice", some "d", "memberOf") ∉
      (parse_ldif "dn: d\nobjectClass: inetOrgPerson\nuid: alice" ["uid"]).2
    ∧ ("", some "d2", "memberOf") ∉ (parse_ldif "dn: d2\nmember:" ["member"]).2 := by
  constructor <;> decide

/-- Claim C3 (corrected): for a line that reaches the membership loop — one
not taken by the `dn:`/`objectClass:` branches nor by the `uid:`/`cn:` node
branches — whose attribute name exactly matches a configured name other than
`memberUid`, the trimmed value after the first colon is treated directly as a
DN, and provided it is non-empty the edge
`(value, current entry dn, "memberOf")` is emitted, the relation being the
fixed string `"memberOf"` regardless of the source attribute. -/
theorem claim_C3 :
    ∀ (attrs : List String) (s : ParseState) (l : String) (attr : String),
      attr ∈ attrs → attr ≠ "memberUid" →
      strStartsWith (strip l) (attr ++ ":") = true →
      strStartsWith (strip l) "dn:" = false →
      strStartsWith (strip l) "objectClass:" = false →
      (strStartsWith (strip l) "uid:" && (s.current_type == some "User")) = false →
      (strStartsWith (strip l) "cn:" && (s.current_type == some "Group")) = false →
      strip (afterFirstColon (strip l)) ≠ "" →
      (strip (afterFirstColon (strip l)), s.current_dn, "memberOf") ∈
        (processLine attrs s l).edges := by
  intro attrs s l attr ha hnu hm h1 h2 h3 h4 hne
  rw [processLine_eq_membershipFold attrs s l h1 h2 h3 h4]
  exact membershipFold_mem_edges (strip l) attrs s attr ha hm hnu hne

/-- Witness for claim C3 at a concrete input: a `member` line emits the edge. -/
theorem claim_C3_witness :
    ("uid=a,dc=x", (none : Option String), "memberOf") ∈
      (processLine ["member"] initState "member: uid=a,dc=x").edges := by
  have h := claim_C3 ["member"] initState "member: uid=a,dc=x" "member" (by decide)
    (by decide) (by decide) (by decide) (by decide) (by decide) (by decide) (by decide)
  exact h

/-- Claim C4 (confirmed): an attribute name is detected exactly when it is in
the five-name candidate vocabulary and occurs verbatim as the pre-colon text
of some trimmed line; matching is exact, so `member` and `memberOf` never
cross-match, and a text with no such line yields the empty set. -/
theorem claim_C4 :
    (∀ (text a : String),
      a ∈ detect_membership_attributes text ↔
        (a ∈ common_attributes ∧ ∃ l ∈ splitLines text, detCond l a))
    ∧ "memberOf" ∈ detect_membership_attributes "memberOf: cn=g"
    ∧ "member" ∉ detect_membership_attributes "memberOf: cn=g"
    ∧ "member" ∈ detect_membership_attributes "member: cn=g"
    ∧ "memberOf" ∉ detect_membership_attributes "member: cn=g"
    ∧ detect_membership_attributes "dn: x\nno membership here" = [] := by
  refine ⟨?_, by decide, by decide, by decide, by decide, by decide⟩
  intro text a
  unfold detect_membership_attributes
  rw [detect_fold_mem]
  simp

/-- Claim C5 (confirmed): an `objectClass` line updates the running type to
the class it names if it matches the User or Group class set and leaves the
running type (and nodes and edges) unchanged otherwise, and over the lines of
one entry the final running type is determined by the last type-assigning
`objectClass` line. -/
theorem claim_C5 :
    (∀ (attrs : List String) (s : ParseState) (l : String),
      strStartsWith (strip l) "objectClass:" = true →
      (processLine attrs s l).current_type = (classifyLineAssign l).or s.current_type
      ∧ (processLine attrs s l).nodes = s.nodes
      ∧ (processLine attrs s l).edges = s.edges)
    ∧ (∀ (attrs : List String) (entry : List String) (s : ParseState),
      (∀ l ∈ entry, isDnLine l = false) →
      (entry.foldl (processLine attrs) s).current_type =
        ((entry.filterMap classifyLineAssign).getLast?).or s.current_type) := by
  constructor
  · intro attrs s l h
    have hdn : isDnLine l = false := objectClass_not_dn h
    refine ⟨?_, ?_, ?_⟩
    · rw [processLine_current_type, hdn, if_neg (by simp)]
    · rw [processLine_nodes, hdn, if_neg (by simp), if_pos h]
    · rw [processLine_edges, hdn, if_neg (by simp), if_pos h]
  · exact fun attrs entry s h => scanFold_current_type attrs entry s h

/-- Witness for claim C5 at concrete inputs: a single Group `objectClass`
line sets the type, and of two assigning lines the later one wins. -/
theorem claim_C5_witness :
    (processLine [] initState "objectClass: posixGroup").current_type = some "Group"
    ∧ (["objectClass: inetOrgPerson", "objectClass: posixGroup"].foldl
        (processLine []) initState).current_type = some "Group" := by
  constructor
  · rw [(claim_C5.1 [] initState "objectClass: posixGroup" (by decide)).1]
    decide
  · rw [claim_C5.2 [] ["objectClass: inetOrgPerson", "objectClass: posixGroup"]
      initState (by decide)]
    decide

/-- Counterexample to claim C6 as stated: on a Group entry whose `member`
value `uid=ghost,dc=x` is never classified as a node, the edge is kept in the
edge list (the only node is the group itself), while the claim says such a
reference is silently dropped. -/
theorem claim_C6_counterexample :
    (parse_ldif c6doc ["member"]).2 = [("uid=ghost,dc=x", some "cn=g,dc=x", "memberOf")]
    ∧ (parse_ldif c6doc ["member"]).1 = [(some "cn=g,dc=x", "g", "Group")] := by
  constructor <;> decide

/-- Claim C6 (corrected): an unresolvable `memberUid` reference is never an
error and silently contributes no edge — a line whose every matching
configured attribute is `memberUid` and whose value is absent from the
local-identifier table leaves the edge list unchanged; but a reference
through any other configured attribute with a non-empty value is emitted
unconditionally, with no check that its target is ever classified as a node. -/
theorem claim_C6 :
    (∀ (attrs : List String) (s : ParseState) (l : String),
      (∀ a ∈ attrs, strStartsWith (strip l) (a ++ ":") = true → a = "memberUid") →
      lookupTable s.uid_to_dn (strip (afterFirstColon (strip l))) = none →
      (processLine attrs s l).edges = s.edges)
    ∧ (∀ (line : String) (s : ParseState) (a : String),
      a ≠ "memberUid" → strStartsWith line (a ++ ":") = true →
      strip (afterFirstColon line) ≠ "" →
      (membershipStep line s a).edges =
        s.edges ++ [(strip (afterFirstColon line), s.current_dn, "memberOf")]) := by
  constructor
  · exact fun attrs s l h1 h2 => processLine_edges_memberUid_only attrs s l h1 h2
  · intro line s a h1 h2 h3
    rw [membershipStep_of_match line s a h2 h1 h3]

/-- Witness for claim C6 at a concrete input: `memberUid: ghost` with an
empty table adds no edge. -/
theorem claim_C6_witness :
    (processLine ["memberUid"] initState "memberUid: ghost").edges = [] := by
  rw [claim_C6.1 ["memberUid"] initState "memberUid: ghost" (by decide) (by decide)]
  rfl

/-- Counterexample to claim C7 as stated: on a loaded document holding one
User entry and no membership lines, `parse` succeeds, yet `export` still
reports the precondition failure (its guard also fires on an empty edge
list). -/
theorem claim_C7_counterexample :
    (consoleParse c7state).2 = true ∧ consoleExport (consoleParse c7state).1 = none := by
  constructor <;> decide

/-- Claim C7 (corrected): `export` reports the precondition failure exactly
when the node list or the edge list is empty — so it does fail before any
parse has produced data, but a successful parse yielding an empty node or
edge list still fails; when both lists are non-empty it proceeds and produces
both the nodes table and the edges table. -/
theorem claim_C7 :
    ∀ s : ConsoleState,
      (consoleExport s = none ↔ (s.nodes = [] ∨ s.edges = []))
      ∧ (s.nodes ≠ [] → s.edges ≠ [] →
          consoleExport s = some (nodesCsv s.nodes, edgesCsv s.edges)) := by
  intro s
  constructor
  · unfold consoleExport
    split
    · rename_i h
      simp only [Bool.or_eq_true, List.isEmpty_iff] at h
      simpa using h
    · rename_i h
      simp only [Bool.or_eq_true, List.isEmpty_iff] at h
      push_neg at h
      simp [h.1, h.2]
  · intro h1 h2
    unfold consoleExport
    rw [if_neg (by simp [List.isEmpty_iff, h1, h2])]

/-- Witness for claim C7 at a concrete state with data: export proceeds. -/
theorem claim_C7_witness :
    consoleExport c7full = some (nodesCsv c7full.nodes, edgesCsv c7full.edges) :=
  (claim_C7 c7full).2 (by decide) (by decide)

/-- Claim C8 (confirmed): invoking `parse` without a loaded document (the
content field is `None`, or the Python-falsy empty string) reports failure to
the caller and leaves the whole console state — in particular the previously
computed nodes and edges — unchanged; no exception is modelled because the
function is total. -/
theorem claim_C8 :
    ∀ s : ConsoleState,
      (s.ldif_content = none ∨ s.ldif_content = some "") →
      consoleParse s = (s, false) := by
  intro s h
  unfold consoleParse
  rcases h with h | h
  · rw [h]
  · rw [h]
    rfl

/-- Witness for claim C8 at the initial console state. -/
theorem claim_C8_witness : consoleParse initConsole = (initConsole, false) :=
  claim_C8 initConsole (Or.inl rfl)

/-- Claim C9 (confirmed): the node collection never contains the same
`(dn, label, type)` triple twice (set semantics on the full triple), a
repeated `uid` value yields a single node while two labels under one dn yield
two nodes, and the edge list keeps duplicates in document order. -/
theorem claim_C9 :
    (∀ (ldif_content : String) (attrs : List String),
      ((parse_ldif ldif_content attrs).1).Nodup)
    ∧ (parse_ldif c9dupDoc []).1 = [(some "uid=a,dc=x", "a", "User")]
    ∧ (parse_ldif c9twoDoc []).1 =
        [(some "uid=a,dc=x", "a", "User"), (some "uid=a,dc=x", "b", "User")]
    ∧ (parse_ldif c9edgeDoc ["member"]).2 =
        [("u1", some "cn=g,dc=x", "memberOf"), ("u1", some "cn=g,dc=x", "memberOf"),
         ("u2", some "cn=g,dc=x", "memberOf")] := by
  refine ⟨?_, by decide, by decide, by decide⟩
  intro content attrs
  exact scanFold_nodes_nodup attrs (splitLines content) initState List.nodup_nil

/-- Claim C10 (confirmed): lines before the first `dn:` line are processed
with the current DN still `none`: over any such prefix the scan keeps
`current_dn = none` and every emitted edge has a `none` target and every
emitted node a `none` dn; on a concrete document such a node and such an edge
are actually produced. -/
theorem claim_C10 :
    (∀ (attrs : List String) (lines : List String),
      (∀ l ∈ lines, isDnLine l = false) →
      (lines.foldl (processLine attrs) initState).current_dn = none
      ∧ (∀ e ∈ (lines.foldl (processLine attrs) initState).edges, e.2.1 = none)
      ∧ (∀ n ∈ (lines.foldl (processLine attrs) initState).nodes, n.1 = none))
    ∧ (none, "alice", "User") ∈ (parse_ldif c10doc ["member"]).1
    ∧ ("uid=b,dc=x", (none : Option String), "memberOf") ∈
        (parse_ldif c10doc ["member"]).2 := by
  refine ⟨?_, by decide, by decide⟩
  intro attrs lines h
  exact scanFold_nullDn attrs lines initState h
    ⟨rfl, fun e he => absurd he (List.not_mem_nil e), fun n hn => absurd hn (List.not_mem_nil n)⟩

/-- Witness for claim C10 at a concrete prefix with no `dn:` line. -/
theorem claim_C10_witness :
    (["objectClass: inetOrgPerson", "uid: alice", "member: uid=b,dc=x"].foldl
        (processLine ["member"]) initState).current_dn = none :=
  (claim_C10.1 ["member"] ["objectClass: inetOrgPerson", "uid: alice", "member: uid=b,dc=x"]
    (by decide)).1

end LDAPLynx
